import Mathlib

/-
Verification of the `@synet/cache` MemoryCache adapter (src/memory.ts).

The development shallowly embeds the TypeScript class `MemoryCache`:

* JS `Map<string, _>` objects become association lists that keep insertion
  order (`mapGet`, `mapSet`, `mapDelete` mirror `Map.get` / `Map.set` /
  `Map.delete` semantics: `set` of an existing key updates it in place,
  `set` of a fresh key appends, `delete` removes).
* `Date.now()` timestamps and the LRU access counter are `Nat` parameters.
* Cached values live in the inductive `Value`; `vCyclic` stands for a
  self-referential object graph (not expressible as an inductive tree),
  whose `JSON.stringify` throws, and `vUndefined` for the JS `undefined`
  value, for which `JSON.stringify` returns `undefined` so that the
  subsequent `.length` access throws.  `jsonLen` models the length of
  `JSON.stringify(value)`, returning `none` when that expression throws.
* Fallible / possibly non-terminating code paths return `JsOutcome`:
  `throws` models an uncaught exception escaping the method, `diverges`
  models a non-terminating `while` loop (reachable in
  `checkMemoryLimits` because `evictOne` can be a no-op).
* JS string `.length` counts UTF-16 code units; Lean `String.length`
  counts code points.  All keys used in concrete statements are in the
  basic multilingual plane, where the two coincide.
-/

namespace SynetCache

/-- JS-like values stored in the cache.  `vCyclic` denotes a
self-referential structure (serialization throws); `vUndefined` denotes
the JS `undefined` value (`JSON.stringify` yields `undefined`, so taking
`.length` of the result throws). -/
inductive Value where
  | vNull
  | vUndefined
  | vBool (b : Bool)
  | vNum (n : Int)
  | vStr (s : String)
  | vCyclic
deriving DecidableEq, Repr

/-- Length contributed by one character inside a JSON string literal
(`JSON.stringify` escaping: quote and backslash become two characters,
common control characters become two, other control characters six). -/
def jsonEscLen (c : Char) : Nat :=
  if c = '"' ∨ c = '\\' then 2
  else if c.toNat < 32 then
    (if c = '\n' ∨ c = '\r' ∨ c = '\t' ∨ c.toNat = 8 ∨ c.toNat = 12 then 2 else 6)
  else 1

/-- Length of `JSON.stringify v`, or `none` when evaluating
`JSON.stringify(v).length` throws (cyclic structure, or `undefined`
result). -/
def jsonLen : Value → Option Nat
  | .vNull => some 4
  | .vUndefined => none
  | .vBool b => some (if b then 4 else 5)
  | .vNum n => some (toString n).length
  | .vStr s => some (2 + (s.data.map jsonEscLen).sum)
  | .vCyclic => none

/-- `CacheEntry` record from cache.interface.ts. -/
structure CacheEntry where
  value : Value
  createdAt : Nat
  accessedAt : Nat
  expiresAt : Option Nat
  ttl : Int
deriving DecidableEq, Repr

inductive EvictionPolicy where
  | lru
  | fifo
deriving DecidableEq, Repr

/-- Resolved configuration of a `MemoryCache` (fields after the `??`
defaults in the constructor).  `maxSize` and `maxMemory` are `Int`
because the constructor accepts and stores arbitrary (also negative)
numbers. -/
structure Config where
  maxSize : Int
  maxMemory : Int
  defaultTTL : Int
  evictionPolicy : EvictionPolicy
deriving DecidableEq, Repr

/-- `MemoryCacheConfig`: the optional constructor argument.
(`cleanupInterval` only feeds the timer and is irrelevant to the model:
periodic reclamation is modelled by calling `memCleanup` explicitly.) -/
structure ConfigInput where
  maxSize : Option Int := none
  maxMemory : Option Int := none
  defaultTTL : Option Int := none
  evictionPolicy : Option EvictionPolicy := none
deriving DecidableEq, Repr

/-- Mutable state of a `MemoryCache` instance. -/
structure CacheState where
  store : List (String × CacheEntry)
  accessOrder : List (String × Nat)
  nextAccessTime : Nat
  hits : Nat
  misses : Nat
  evictions : Nat
deriving DecidableEq, Repr

def emptyState : CacheState := ⟨[], [], 1, 0, 0, 0⟩

/-- The constructor (memory.ts lines 46-55): applies `??` defaults and
starts from an empty store.  The source performs no validation and has
no throwing path. -/
def construct (c : ConfigInput) : Config × CacheState :=
  (⟨c.maxSize.getD 1000, c.maxMemory.getD (100 * 1024 * 1024),
    c.defaultTTL.getD (60 * 60 * 1000), c.evictionPolicy.getD .lru⟩,
   emptyState)

/-- `Map.get`. -/
def mapGet (m : List (String × α)) (k : String) : Option α :=
  (m.find? (fun p => p.1 == k)).map Prod.snd

/-- `Map.set`: update in place if present, append otherwise. -/
def mapSet (m : List (String × α)) (k : String) (v : α) : List (String × α) :=
  if m.any (fun p => p.1 == k) then
    m.map (fun p => if p.1 == k then (k, v) else p)
  else m ++ [(k, v)]

/-- `Map.delete`. -/
def mapDelete (m : List (String × α)) (k : String) : List (String × α) :=
  m.filter (fun p => !(p.1 == k))

/-- Truthiness test `entry.expiresAt && Date.now() > entry.expiresAt`
(an `expiresAt` of `0` would be falsy in JS, hence the `t ≠ 0`
conjunct; `set` in fact never produces `0`). -/
def expiredB (e : CacheEntry) (now : Nat) : Bool :=
  match e.expiresAt with
  | none => false
  | some t => (t != 0) && (t < now)

/-- `MemoryCache.get` (lines 57-81).  Returns the JS return value
(`Value.vNull` doubles as the JS `null` miss result) together with the
updated state. -/
def memGet (cfg : Config) (s : CacheState) (k : String) (now : Nat) :
    Value × CacheState :=
  match mapGet s.store k with
  | none => (.vNull, { s with misses := s.misses + 1 })
  | some e =>
    if expiredB e now then
      (.vNull, { s with store := mapDelete s.store k,
                        accessOrder := mapDelete s.accessOrder k,
                        misses := s.misses + 1 })
    else
      let e' := { e with accessedAt := now }
      let s1 := { s with store := mapSet s.store k e' }
      let s2 :=
        if cfg.evictionPolicy = .lru then
          { s1 with accessOrder := mapSet s1.accessOrder k s1.nextAccessTime,
                    nextAccessTime := s1.nextAccessTime + 1 }
        else s1
      (e.value, { s2 with hits := s2.hits + 1 })

/-- The entry literal built at the top of `set` (lines 87-93). -/
def mkEntry (cfg : Config) (v : Value) (ttl : Option Int) (now : Nat) :
    CacheEntry :=
  let eff := ttl.getD cfg.defaultTTL
  ⟨v, now, now, if eff > 0 then some (now + eff.toNat) else none, eff⟩

/-- One iteration of the victim-selection loops in `evictOne`: keep the
entry with the smallest measure seen so far (`none` plays the initial
`Infinity`, the comparison is strict, so the first minimum wins). -/
def svStep (f : α → Nat) (acc : String × Option Nat) (p : String × α) :
    String × Option Nat :=
  match acc.2 with
  | none => (p.1, some (f p.2))
  | some t => if f p.2 < t then (p.1, some (f p.2)) else acc

/-- The two victim-selection loops of `evictOne` share this shape:
starting from `keyToEvict = ''` and `Infinity`, scan the map in
insertion order. -/
def selectVictim (f : α → Nat) (m : List (String × α)) : String :=
  (m.foldl (svStep f) ("", none)).1

/-- `MemoryCache.evictOne` (lines 188-222).  Note the final
`if (keyToEvict)`: a selected empty-string key is falsy, so nothing is
evicted in that case. -/
def evictOne (cfg : Config) (s : CacheState) : CacheState :=
  if s.store.isEmpty then s
  else
    let keyToEvict :=
      if cfg.evictionPolicy = .lru then
        selectVictim (fun t => t) s.accessOrder
      else
        selectVictim CacheEntry.createdAt s.store
    if keyToEvict = "" then s
    else
      { s with store := mapDelete s.store keyToEvict,
               accessOrder := mapDelete s.accessOrder keyToEvict,
               evictions := s.evictions + 1 }

/-- `MemoryCache.estimateMemoryUsage` (lines 232-243): per entry,
`key.length * 2 + JSON.stringify(entry.value).length * 2 + 64`.
`none` models the first thrown exception escaping the loop. -/
def estimateMemoryUsage (s : CacheState) : Option Nat :=
  s.store.foldl
    (fun acc p =>
      match acc, jsonLen p.2.value with
      | some a, some j => some (a + p.1.length * 2 + j * 2 + 64)
      | _, _ => none)
    (some 0)

/-- Outcome of running a method whose JS execution can throw or hang. -/
inductive JsOutcome (α : Type) where
  | ok (a : α)
  | throws
  | diverges
deriving DecidableEq, Repr

def JsOutcome.bind : JsOutcome α → (α → JsOutcome β) → JsOutcome β
  | .ok a, f => f a
  | .throws, _ => .throws
  | .diverges, _ => .diverges

def okState : JsOutcome CacheState → Option CacheState
  | .ok s => some s
  | _ => none

/-- The `while` loop of `checkMemoryLimits`.  `currentMemory` is the
`const` computed once before the loop in the source and never updated
inside it.  Fuel `store.length + 1` suffices for every terminating run
(each productive iteration removes a key); running out of fuel happens
exactly when `evictOne` stops making progress, i.e. when the JS loop
would spin forever. -/
def evictLoop (cfg : Config) (currentMemory : Int) :
    Nat → CacheState → Option CacheState
  | 0, _ => none
  | fuel + 1, s =>
    if currentMemory > cfg.maxMemory ∧ 0 < s.store.length then
      evictLoop cfg currentMemory fuel (evictOne cfg s)
    else some s

/-- `MemoryCache.checkMemoryLimits` (lines 224-230). -/
def checkMemoryLimits (cfg : Config) (s : CacheState) : JsOutcome CacheState :=
  match estimateMemoryUsage s with
  | none => .throws
  | some cm =>
    match evictLoop cfg (cm : Int) (s.store.length + 1) s with
    | none => .diverges
    | some s' => .ok s'

/-- The state after the straight-line part of `set` (lines 95-104):
pre-insertion capacity eviction, `store.set`, LRU bookkeeping. -/
def setInsert (cfg : Config) (s : CacheState) (k : String)
    (entry : CacheEntry) : CacheState :=
  let s1 :=
    if ¬ s.store.any (fun p => p.1 == k) ∧ (s.store.length : Int) ≥ cfg.maxSize
    then evictOne cfg s
    else s
  let s2 := { s1 with store := mapSet s1.store k entry }
  if cfg.evictionPolicy = .lru then
    { s2 with accessOrder := mapSet s2.accessOrder k s2.nextAccessTime,
              nextAccessTime := s2.nextAccessTime + 1 }
  else s2

/-- `MemoryCache.set` (lines 83-108). -/
def memSet (cfg : Config) (s : CacheState) (k : String) (v : Value)
    (ttl : Option Int) (now : Nat) : JsOutcome CacheState :=
  checkMemoryLimits cfg (setInsert cfg s k (mkEntry cfg v ttl now))

/-- `MemoryCache.has` (lines 110-112): `get(key) !== null`. -/
def memHas (cfg : Config) (s : CacheState) (k : String) (now : Nat) :
    Bool × CacheState :=
  let r := memGet cfg s k now
  (r.1 != .vNull, r.2)

/-- `MemoryCache.cleanup` (lines 160-173). -/
def memCleanup (s : CacheState) (now : Nat) : Nat × CacheState :=
  ((s.store.filter (fun p => expiredB p.2 now)).length,
   { s with
      store := s.store.filter (fun p => !(expiredB p.2 now)),
      accessOrder := s.accessOrder.filter
        (fun q => !(s.store.any (fun p => p.1 == q.1 && expiredB p.2 now))) })

/-- `MemoryCache.size` (lines 142-144): the raw `Map` size. -/
def memSize (s : CacheState) : Nat := s.store.length

/-! ### Glob patterns (`globToRegex`, lines 245-253, and `keys`)

`globToRegex` performs three successive global string replacements and
wraps the result in `^...$`.  Each replacement has a single-character
search pattern, so it is a character-wise rewrite of the string; the
three rewrites are `escPass`, `starPass` and `qmarkPass` below.  The
resulting regular expression is interpreted by `RegExp.prototype.test`;
for the emitted fragment (escaped literals, `.` and `.*`, anchored)
that interpreter is modelled by `toks`/`mtoks`, where JS `.` matches
every character except the four line terminators. -/

/-- The character class `[.+^${}()|[\]\\]` escaped by the first
`replace`. -/
def isRegexMeta (c : Char) : Bool :=
  c == '.' || c == '+' || c == '^' || c == '$' || c == Char.ofNat 123 ||
  c == Char.ofNat 125 || c == '(' || c == ')' || c == '|' || c == '[' ||
  c == ']' || c == '\\'

/-- `pattern.replace(/[.+^${}()|[\]\\]/g, '\\$&')`. -/
def escPass : List Char → List Char
  | [] => []
  | c :: p => (if isRegexMeta c then ['\\', c] else [c]) ++ escPass p

/-- `.replace(/\*/g, '.*')`. -/
def starPass : List Char → List Char
  | [] => []
  | c :: p => (if c = '*' then ['.', '*'] else [c]) ++ starPass p

/-- `.replace(/\?/g, '.')`. -/
def qmarkPass : List Char → List Char
  | [] => []
  | c :: p => (if c = '?' then '.' else c) :: qmarkPass p

/-- Body of the regular expression built by `globToRegex` (between the
`^` and `$` anchors). -/
def globToRegexStr (p : List Char) : List Char :=
  qmarkPass (starPass (escPass p))

/-- The four JS line terminators, which `.` does not match (the regex
is built without the `s` flag). -/
def isLineTerm (c : Char) : Bool :=
  c == '\n' || c == '\r' || c == Char.ofNat 8232 || c == Char.ofNat 8233

/-- Tokens of the regex fragment emitted by `globToRegex`. -/
inductive RTok where
  | lit (c : Char)
  | anyOne
  | anyStar
deriving DecidableEq, Repr

/-- Tokenizer for the emitted fragment: `\c` is a literal, `.*` is a
star, a lone `.` matches one character. -/
def toks : List Char → List RTok
  | [] => []
  | c :: r =>
    if c = '\\' then
      match r with
      | c2 :: r2 => .lit c2 :: toks r2
      | [] => []
    else if c = '.' then
      match r with
      | c2 :: r2 => if c2 = '*' then .anyStar :: toks r2 else .anyOne :: toks (c2 :: r2)
      | [] => [.anyOne]
    else .lit c :: toks r

/-- `.*` tries the continuation after consuming any run of
non-line-terminator characters (backtracking existence semantics, as
`RegExp.test` reports). -/
def starRun (k : List Char → Bool) : List Char → Bool
  | [] => k []
  | c :: s => k (c :: s) || (!(isLineTerm c) && starRun k s)

/-- Anchored matching of a token list against a string, with JS `.`
semantics. -/
def mtoks : List RTok → List Char → Bool
  | [], s => s.isEmpty
  | RTok.lit a :: ts, s =>
    match s with
    | [] => false
    | c :: s' => (c == a) && mtoks ts s'
  | RTok.anyOne :: ts, s =>
    match s with
    | [] => false
    | c :: s' => !(isLineTerm c) && mtoks ts s'
  | RTok.anyStar :: ts, s => starRun (mtoks ts) s

/-- `regex.test(key)` for the anchored regex with body `r`. -/
def rtest (r : List Char) (k : String) : Bool := mtoks (toks r) k.data

/-- `MemoryCache.keys` (lines 130-140).  `pattern = none` models the
`undefined` argument; note `if (!pattern)` also treats the empty
string as "no pattern" because `""` is falsy. -/
def memKeys (s : CacheState) (pattern : Option String) : List String :=
  let allKeys := s.store.map Prod.fst
  match pattern with
  | none => allKeys
  | some p =>
    if p = "" then allKeys
    else allKeys.filter (fun k => rtest (globToRegexStr p.data) k)

/-- Direct glob matching as the spec describes it, amended with the
line-terminator behaviour inherited from JS `.`: `*` matches a run of
zero or more non-line-terminator characters, `?` matches exactly one
non-line-terminator character, every other character matches itself. -/
def amatch : List Char → List Char → Bool
  | [], s => s.isEmpty
  | c :: p, s =>
    if c = '*' then starRun (amatch p) s
    else
      match s with
      | [] => false
      | c' :: s' => (if c = '?' then !(isLineTerm c') else c' == c) && amatch p s'

/-- A `*` with no character restriction: the continuation may be tried
after skipping any run of characters. -/
def anyRun (k : List Char → Bool) : List Char → Bool
  | [] => k []
  | c :: s => k (c :: s) || anyRun k s

/-- Glob matching exactly as the spec sentence reads, with no
line-terminator caveat: `*` matches any run of characters, `?` matches
exactly one arbitrary character, other characters are literal. -/
def specGlobMatch : List Char → List Char → Bool
  | [], s => s.isEmpty
  | c :: p, s =>
    if c = '*' then anyRun (specGlobMatch p) s
    else
      match s with
      | [] => false
      | c' :: s' => (if c = '?' then true else c' == c) && specGlobMatch p s'

/-! ### Association-list (JS `Map`) lemmas -/

theorem mapGet_cons (q : String × α) (m : List (String × α)) (k : String) :
    mapGet (q :: m) k = if q.1 == k then some q.2 else mapGet m k := by
  by_cases h : q.1 == k <;> simp [mapGet, List.find?_cons, h]

theorem mapSet_cons_of_ne (q : String × α) (m : List (String × α)) (k : String)
    (v : α) (h : (q.1 == k) = false) :
    mapSet (q :: m) k v = q :: mapSet m k v := by
  have h' : ¬ q.1 = k := by simpa using h
  by_cases hm : m.any (fun p => p.1 == k) <;>
    simp [mapSet, List.any_cons, h, hm, h']

theorem find?_map_replace (m : List (String × α)) (k : String) (v : α)
    (hm : m.any (fun p => p.1 == k) = true) :
    (m.map (fun p => if p.1 == k then (k, v) else p)).find?
      (fun p => p.1 == k) = some (k, v) := by
  induction m with
  | nil => simp at hm
  | cons q m ih =>
    rw [List.map_cons]
    by_cases hq : (q.1 == k) = true
    · rw [if_pos hq, List.find?_cons_of_pos _ (by simp)]
    · rw [if_neg (by simp [hq]), List.find?_cons_of_neg _ (by simp_all)]
      apply ih
      simpa [List.any_cons, hq] using hm

theorem mapGet_mapSet_self (m : List (String × α)) (k : String) (v : α) :
    mapGet (mapSet m k v) k = some v := by
  unfold mapGet mapSet
  by_cases hm : m.any (fun p => p.1 == k)
  · rw [if_pos hm, find?_map_replace m k v hm]
    rfl
  · rw [if_neg hm]
    have hnone : m.find? (fun p => p.1 == k) = none := by
      rw [List.find?_eq_none]
      intro p hp hcon
      exact hm (List.any_eq_true.mpr ⟨p, hp, hcon⟩)
    rw [List.find?_append, hnone]
    simp

theorem mapGet_mapDelete_self (m : List (String × α)) (k : String) :
    mapGet (mapDelete m k) k = none := by
  simp only [mapGet, Option.map_eq_none']
  rw [List.find?_eq_none]
  intro p hp
  have h := (List.mem_filter.mp hp).2
  simp only [Bool.not_eq_true'] at h
  simp [h]

theorem mapGet_mapDelete_ne (m : List (String × α)) (j k : String)
    (h : k ≠ j) : mapGet (mapDelete m j) k = mapGet m k := by
  induction m with
  | nil => rfl
  | cons q m ih =>
    by_cases hqj : q.1 = j
    · have hqk : (q.1 == k) = false := by
        rw [hqj]; exact beq_eq_false_iff_ne.mpr (Ne.symm h)
      have hdel : mapDelete (q :: m) j = mapDelete m j := by
        simp [mapDelete, List.filter_cons, hqj]
      rw [hdel, ih, mapGet_cons, hqk]
      simp
    · have hqj' : (q.1 == j) = false := beq_eq_false_iff_ne.mpr hqj
      have hdel : mapDelete (q :: m) j = q :: mapDelete m j := by
        simp [mapDelete, List.filter_cons, hqj']
      rw [hdel, mapGet_cons, mapGet_cons, ih]

/-- An element found by `find?` survives a `filter` that keeps it, and
is still the first match (filtering only removes elements). -/
theorem find?_filter_of_pred {l : List β} {q r : β → Bool} {a : β}
    (h : l.find? q = some a) (hr : r a = true) :
    (l.filter r).find? q = some a := by
  induction l with
  | nil => simp at h
  | cons x l ih =>
    by_cases hx : q x
    · rw [List.find?_cons_of_pos _ hx] at h
      cases h
      rw [List.filter_cons_of_pos hr, List.find?_cons_of_pos _ hx]
    · rw [List.find?_cons_of_neg _ hx] at h
      by_cases hrx : r x
      · rw [List.filter_cons_of_pos hrx, List.find?_cons_of_neg _ hx]
        exact ih h
      · rw [List.filter_cons_of_neg (by simp [hrx])]
        exact ih h

/-- In a list with `Nodup` keys, two members with equal keys are equal. -/
theorem eq_of_nodup_keys {l : List (String × α)}
    (hnd : (l.map Prod.fst).Nodup) {p q : String × α}
    (hp : p ∈ l) (hq : q ∈ l) (h : p.1 = q.1) : p = q := by
  induction l with
  | nil => simp at hp
  | cons x l ih =>
    rw [List.map_cons, List.nodup_cons] at hnd
    rcases List.mem_cons.mp hp with rfl | hp'
    · rcases List.mem_cons.mp hq with rfl | hq'
      · rfl
      · exact absurd (h ▸ List.mem_map_of_mem Prod.fst hq') hnd.1
    · rcases List.mem_cons.mp hq with rfl | hq'
      · exact absurd (h ▸ List.mem_map_of_mem Prod.fst hp') (by simpa [← h] using hnd.1)
      · exact ih hnd.2 hp' hq'

/-! ### Victim-selection lemmas -/

theorem sv_keep (f : α → Nat) (k' : String) (t' : Nat) :
    ∀ m : List (String × α), (∀ p ∈ m, ¬ f p.2 < t') →
      m.foldl (svStep f) (k', some t') = (k', some t') := by
  intro m
  induction m with
  | nil => intro _; rfl
  | cons p m ih =>
    intro h
    rw [List.foldl_cons]
    have hstep : svStep f (k', some t') p = (k', some t') := by
      simp [svStep, h p (List.mem_cons_self p m)]
    rw [hstep]
    exact ih (fun q hq => h q (List.mem_cons_of_mem _ hq))

theorem sv_find (f : α → Nat) (k₀ : String) (a₀ : α) :
    ∀ (m : List (String × α)) (k' : String) (t' : Nat),
      (k₀, a₀) ∈ m → f a₀ < t' →
      (∀ p ∈ m, p ≠ (k₀, a₀) → f a₀ < f p.2) →
      m.foldl (svStep f) (k', some t') = (k₀, some (f a₀)) := by
  intro m
  induction m with
  | nil => intro _ _ h; simp at h
  | cons p m ih =>
    intro k' t' hmem hlt hmin
    rw [List.foldl_cons]
    by_cases hp : p = (k₀, a₀)
    · subst hp
      have hstep : svStep f (k', some t') (k₀, a₀) = (k₀, some (f a₀)) := by
        simp [svStep, hlt]
      rw [hstep]
      refine sv_keep f k₀ (f a₀) m (fun q hq => ?_)
      by_cases hq0 : q = (k₀, a₀)
      · subst hq0; exact lt_irrefl _
      · exact fun hcon =>
          absurd (hmin q (List.mem_cons_of_mem _ hq) hq0) (by omega)
    · have hmem' : (k₀, a₀) ∈ m := by
        rcases List.mem_cons.mp hmem with heq | hm
        · exact absurd heq.symm hp
        · exact hm
      have hpmin : f a₀ < f p.2 := hmin p (List.mem_cons_self p m) hp
      have hminm : ∀ q ∈ m, q ≠ (k₀, a₀) → f a₀ < f q.2 :=
        fun q hq => hmin q (List.mem_cons_of_mem _ hq)
      by_cases hcmp : f p.2 < t'
      · have hstep : svStep f (k', some t') p = (p.1, some (f p.2)) := by
          simp [svStep, hcmp]
        rw [hstep]
        exact ih p.1 (f p.2) hmem' hpmin hminm
      · have hstep : svStep f (k', some t') p = (k', some t') := by
          simp [svStep, hcmp]
        rw [hstep]
        exact ih k' t' hmem' hlt hminm

/-- `selectVictim` returns the key with the strictly smallest measure
(ties with the minimum can only be exact duplicates of the same pair,
matching the strict `<` in the source that keeps the first minimum). -/
theorem selectVictim_eq (f : α → Nat) (m : List (String × α))
    (k₀ : String) (a₀ : α) (hmem : (k₀, a₀) ∈ m)
    (hmin : ∀ p ∈ m, p ≠ (k₀, a₀) → f a₀ < f p.2) :
    selectVictim f m = k₀ := by
  cases m with
  | nil => simp at hmem
  | cons p m =>
    unfold selectVictim
    rw [List.foldl_cons]
    have h1 : svStep f ("", none) p = (p.1, some (f p.2)) := by simp [svStep]
    rw [h1]
    by_cases hp : p = (k₀, a₀)
    · subst hp
      rw [sv_keep f k₀ (f a₀) m (fun q hq => ?_)]
      by_cases hq0 : q = (k₀, a₀)
      · subst hq0; exact lt_irrefl _
      · exact fun hcon =>
          absurd (hmin q (List.mem_cons_of_mem _ hq) hq0) (by omega)
    · have hmem' : (k₀, a₀) ∈ m := by
        rcases List.mem_cons.mp hmem with heq | hm
        · exact absurd heq.symm hp
        · exact hm
      have hpmin : f a₀ < f p.2 := hmin p (List.mem_cons_self p m) hp
      rw [sv_find f k₀ a₀ m p.1 (f p.2) hmem' hpmin
        (fun q hq => hmin q (List.mem_cons_of_mem _ hq))]

/-! ### The emitted regex against direct glob matching -/

/-- Glob character classification as a single token. -/
def globTok (c : Char) : RTok :=
  if c = '*' then .anyStar else if c = '?' then .anyOne else .lit c

/-- Per-character output of the three replacement passes combined. -/
def globFrag (c : Char) : List Char :=
  if isRegexMeta c then ['\\', c]
  else if c = '*' then ['.', '*']
  else if c = '?' then ['.']
  else [c]

theorem meta_ne_star {c : Char} (h : isRegexMeta c = true) : c ≠ '*' := by
  intro he; rw [he] at h; exact absurd h (by decide)

theorem meta_ne_qmark {c : Char} (h : isRegexMeta c = true) : c ≠ '?' := by
  intro he; rw [he] at h; exact absurd h (by decide)

theorem not_meta_ne_bslash {c : Char} (h : isRegexMeta c = false) : c ≠ '\\' := by
  intro he; rw [he] at h; exact absurd h (by decide)

theorem not_meta_ne_dot {c : Char} (h : isRegexMeta c = false) : c ≠ '.' := by
  intro he; rw [he] at h; exact absurd h (by decide)

theorem starPass_append (a b : List Char) :
    starPass (a ++ b) = starPass a ++ starPass b := by
  induction a with
  | nil => rfl
  | cons c a ih => simp [starPass, ih, List.append_assoc]

theorem qmarkPass_append (a b : List Char) :
    qmarkPass (a ++ b) = qmarkPass a ++ qmarkPass b := by
  induction a with
  | nil => rfl
  | cons c a ih => simp [qmarkPass, ih]

theorem globToRegexStr_cons (c : Char) (p : List Char) :
    globToRegexStr (c :: p) = globFrag c ++ globToRegexStr p := by
  unfold globToRegexStr globFrag
  rw [show escPass (c :: p)
      = (if isRegexMeta c then ['\\', c] else [c]) ++ escPass p from rfl]
  by_cases hm : isRegexMeta c = true
  · rw [if_pos hm, if_pos hm, starPass_append, qmarkPass_append]
    congr 1
    have h1 : c ≠ '*' := meta_ne_star hm
    have h2 : c ≠ '?' := meta_ne_qmark hm
    simp [starPass, qmarkPass, h1, h2]
  · have hm' : isRegexMeta c = false := by simpa using hm
    rw [if_neg hm, if_neg hm, starPass_append, qmarkPass_append]
    congr 1
    by_cases hs : c = '*'
    · subst hs; simp [starPass, qmarkPass]
    · rw [if_neg hs]
      by_cases hq : c = '?'
      · subst hq; simp [starPass, qmarkPass]
      · rw [if_neg hq]; simp [starPass, qmarkPass, hs, hq]

theorem globToRegexStr_head (p : List Char) :
    ∀ c2 r2, globToRegexStr p = c2 :: r2 → c2 ≠ '*' := by
  cases p with
  | nil =>
    intro c2 r2 h
    exact absurd h (by simp [globToRegexStr, escPass, starPass, qmarkPass])
  | cons c p =>
    intro c2 r2 h
    rw [globToRegexStr_cons] at h
    by_cases hm : isRegexMeta c = true
    · rw [show globFrag c = ['\\', c] from by simp [globFrag, hm]] at h
      simp only [List.cons_append, List.singleton_append, List.nil_append] at h
      injection h with h1 _
      rw [← h1]; decide
    · have hm' : isRegexMeta c = false := by simpa using hm
      by_cases hs : c = '*'
      · subst hs
        rw [show globFrag '*' = ['.', '*'] from by decide] at h
        simp only [List.cons_append, List.singleton_append, List.nil_append] at h
        injection h with h1 _
        rw [← h1]; decide
      · by_cases hq : c = '?'
        · subst hq
          rw [show globFrag '?' = ['.'] from by decide] at h
          simp only [List.singleton_append] at h
          injection h with h1 _
          rw [← h1]; decide
        · rw [show globFrag c = [c] from by simp [globFrag, hm', hs, hq]] at h
          simp only [List.singleton_append] at h
          injection h with h1 _
          rw [← h1]; exact hs

theorem toks_glob : ∀ p : List Char, toks (globToRegexStr p) = p.map globTok := by
  intro p
  induction p with
  | nil => rfl
  | cons c p ih =>
    rw [globToRegexStr_cons, List.map_cons]
    by_cases hm : isRegexMeta c = true
    · rw [show globFrag c = ['\\', c] from by simp [globFrag, hm]]
      simp only [List.cons_append, List.singleton_append, List.nil_append]
      rw [show toks ('\\' :: c :: globToRegexStr p)
          = .lit c :: toks (globToRegexStr p) from by simp [toks]]
      rw [ih, show globTok c = .lit c from by
        simp [globTok, meta_ne_star hm, meta_ne_qmark hm]]
    · have hm' : isRegexMeta c = false := by simpa using hm
      by_cases hs : c = '*'
      · subst hs
        rw [show globFrag '*' = ['.', '*'] from by decide]
        simp only [List.cons_append, List.singleton_append, List.nil_append]
        rw [show toks ('.' :: '*' :: globToRegexStr p)
            = .anyStar :: toks (globToRegexStr p) from by simp [toks]]
        rw [ih]; rfl
      · by_cases hq : c = '?'
        · subst hq
          rw [show globFrag '?' = ['.'] from by decide]
          simp only [List.singleton_append]
          rcases hrest : globToRegexStr p with _ | ⟨c2, r2⟩
          · rw [hrest] at ih
            rw [show toks ['.'] = [.anyOne] from by simp [toks]]
            rw [show (toks [] : List RTok) = [] from rfl] at ih
            rw [← ih]; rfl
          · have hc2 : c2 ≠ '*' := globToRegexStr_head p c2 r2 hrest
            rw [show toks ('.' :: c2 :: r2) = .anyOne :: toks (c2 :: r2) from by
              simp [toks, hc2]]
            rw [← hrest, ih]; rfl
        · rw [show globFrag c = [c] from by simp [globFrag, hm', hs, hq]]
          simp only [List.singleton_append]
          rw [show toks (c :: globToRegexStr p)
              = .lit c :: toks (globToRegexStr p) from by
            rw [toks.eq_def]
            simp [not_meta_ne_bslash hm', not_meta_ne_dot hm']]
          rw [ih]
          simp [globTok, hs, hq]

theorem starRun_congr (k k' : List Char → Bool) :
    ∀ s, (∀ t : List Char, t.length ≤ s.length → k t = k' t) →
      starRun k s = starRun k' s := by
  intro s
  induction s with
  | nil => intro h; exact h [] le_rfl
  | cons c s ih =>
    intro h
    simp only [starRun]
    rw [h (c :: s) le_rfl, ih (fun t ht => h t (by simp; omega))]

theorem mtoks_glob_aux :
    ∀ n p s, p.length + s.length ≤ n →
      mtoks (p.map globTok) s = amatch p s := by
  intro n
  induction n with
  | zero =>
    intro p s h
    match p, s with
    | [], [] => rfl
    | [], _ :: _ => simp at h
    | _ :: _, _ => simp at h
  | succ n ih =>
    intro p s h
    match p with
    | [] => cases s <;> rfl
    | c :: p =>
      by_cases hs : c = '*'
      · subst hs
        rw [List.map_cons, show globTok '*' = .anyStar from rfl,
          show mtoks (.anyStar :: p.map globTok) s
            = starRun (mtoks (p.map globTok)) s from rfl,
          show amatch ('*' :: p) s = starRun (amatch p) s from by
            simp [amatch]]
        exact starRun_congr _ _ s (fun t ht =>
          ih p t (by simp at h; omega))
      · by_cases hq : c = '?'
        · subst hq
          cases s with
          | nil => simp [globTok, mtoks, amatch]
          | cons c' s' =>
            have h1 := ih p s' (by simp at h; omega)
            rw [List.map_cons, show globTok '?' = .anyOne from rfl,
              show mtoks (.anyOne :: p.map globTok) (c' :: s')
                = (!(isLineTerm c') && mtoks (p.map globTok) s') from rfl,
              h1]
            simp [amatch]
        · cases s with
          | nil => simp [globTok, hs, hq, mtoks, amatch]
          | cons c' s' =>
            have h1 := ih p s' (by simp at h; omega)
            rw [List.map_cons, show globTok c = .lit c from by
                simp [globTok, hs, hq],
              show mtoks (.lit c :: p.map globTok) (c' :: s')
                = ((c' == c) && mtoks (p.map globTok) s') from rfl,
              h1]
            simp [amatch, hs, hq]

/-- The anchored regular expression produced by `globToRegex` accepts a
string exactly when the direct glob matcher `amatch` does. -/
theorem rtest_glob (p : List Char) (k : String) :
    rtest (globToRegexStr p) k = amatch p k.data := by
  unfold rtest
  rw [toks_glob]
  exact mtoks_glob_aux (p.length + k.data.length) p k.data le_rfl

/-! ### Operation-level lemmas -/

theorem memGet_miss (cfg : Config) (s : CacheState) (k : String) (now : Nat)
    (h : mapGet s.store k = none) :
    memGet cfg s k now = (.vNull, { s with misses := s.misses + 1 }) := by
  unfold memGet
  rw [h]

theorem memGet_expired (cfg : Config) (s : CacheState) (k : String)
    (now : Nat) (e : CacheEntry) (h : mapGet s.store k = some e)
    (hexp : expiredB e now = true) :
    memGet cfg s k now
      = (.vNull, { s with store := mapDelete s.store k,
                          accessOrder := mapDelete s.accessOrder k,
                          misses := s.misses + 1 }) := by
  unfold memGet
  rw [h]
  simp only [hexp, if_true]

theorem memGet_live (cfg : Config) (s : CacheState) (k : String) (now : Nat)
    (e : CacheEntry) (h : mapGet s.store k = some e)
    (hlive : expiredB e now = false) :
    (memGet cfg s k now).1 = e.value
    ∧ (memGet cfg s k now).2.hits = s.hits + 1
    ∧ (memGet cfg s k now).2.misses = s.misses
    ∧ (memGet cfg s k now).2.store = mapSet s.store k { e with accessedAt := now }
    ∧ (cfg.evictionPolicy = .lru →
         (memGet cfg s k now).2.accessOrder = mapSet s.accessOrder k s.nextAccessTime
         ∧ (memGet cfg s k now).2.nextAccessTime = s.nextAccessTime + 1)
    ∧ (cfg.evictionPolicy = .fifo →
         (memGet cfg s k now).2.accessOrder = s.accessOrder
         ∧ (memGet cfg s k now).2.nextAccessTime = s.nextAccessTime) := by
  unfold memGet
  rw [h]
  simp only [hlive, Bool.false_eq_true, if_false]
  by_cases hp : cfg.evictionPolicy = .lru
  · simp [hp]
  · have hf : cfg.evictionPolicy = .fifo := by
      cases hcfg : cfg.evictionPolicy
      · exact absurd hcfg hp
      · rfl
    simp [hf]

theorem memGet_fifo_ranking (cfg : Config) (s : CacheState) (k : String)
    (now : Nat) (e : CacheEntry) (hnd : (s.store.map Prod.fst).Nodup)
    (h : mapGet s.store k = some e) (hlive : expiredB e now = false) :
    (memGet cfg s k now).2.store.map (fun p => (p.1, p.2.createdAt))
      = s.store.map (fun p => (p.1, p.2.createdAt)) := by
  rw [(memGet_live cfg s k now e h hlive).2.2.2.1]
  cases hf : s.store.find? (fun p => p.1 == k) with
  | none => unfold mapGet at h; rw [hf] at h; simp at h
  | some pr =>
    have hmem := List.mem_of_find?_eq_some hf
    have hkey : pr.1 = k := by simpa using List.find?_some hf
    have hval : pr.2 = e := by unfold mapGet at h; rw [hf] at h; simpa using h
    have hpr : pr = (k, e) := by
      cases pr; simp_all
    have hany : s.store.any (fun p => p.1 == k) = true :=
      List.any_eq_true.mpr ⟨pr, hmem, by simp [hkey]⟩
    unfold mapSet
    rw [if_pos hany, List.map_map]
    refine List.map_congr_left (fun p hp => ?_)
    by_cases hpk : (p.1 == k) = true
    · have : p = (k, e) := by
        rw [← hpr]
        exact eq_of_nodup_keys hnd hp hmem (by rw [hkey]; simpa using hpk)
      simp [Function.comp, hpk, this]
    · simp [Function.comp, hpk]

theorem mapGet_evictOne (cfg : Config) (s : CacheState) (k : String)
    (e : CacheEntry) (h : mapGet (evictOne cfg s).store k = some e) :
    mapGet s.store k = some e := by
  unfold evictOne at h
  by_cases h0 : s.store.isEmpty
  · rwa [if_pos h0] at h
  · rw [if_neg h0] at h
    dsimp only at h
    set kv := (if cfg.evictionPolicy = .lru then
      selectVictim (fun t => t) s.accessOrder
      else selectVictim CacheEntry.createdAt s.store) with hkv
    by_cases hk : kv = ""
    · rwa [if_pos hk] at h
    · rw [if_neg hk] at h
      dsimp only at h
      by_cases hek : k = kv
      · rw [hek, mapGet_mapDelete_self] at h
        exact absurd h (by simp)
      · rwa [mapGet_mapDelete_ne _ _ _ hek] at h

theorem mapGet_evictLoop (cfg : Config) (cm : Int) :
    ∀ (fuel : Nat) (s s' : CacheState), evictLoop cfg cm fuel s = some s' →
      ∀ k e, mapGet s'.store k = some e → mapGet s.store k = some e := by
  intro fuel
  induction fuel with
  | zero => intro s s' h; simp [evictLoop] at h
  | succ n ih =>
    intro s s' h k e he
    rw [show evictLoop cfg cm (n + 1) s
        = if cm > cfg.maxMemory ∧ 0 < s.store.length then
            evictLoop cfg cm n (evictOne cfg s)
          else some s from rfl] at h
    by_cases hc : cm > cfg.maxMemory ∧ 0 < s.store.length
    · rw [if_pos hc] at h
      exact mapGet_evictOne cfg s k e (ih (evictOne cfg s) s' h k e he)
    · rw [if_neg hc] at h
      cases h
      exact he

theorem mapGet_checkMemoryLimits (cfg : Config) (s s' : CacheState)
    (h : checkMemoryLimits cfg s = .ok s') (k : String) (e : CacheEntry)
    (he : mapGet s'.store k = some e) : mapGet s.store k = some e := by
  unfold checkMemoryLimits at h
  split at h
  · exact absurd h (by simp)
  · split at h
    · exact absurd h (by simp)
    · next _ hloop =>
        cases h
        exact mapGet_evictLoop cfg _ _ s _ hloop k e he

theorem setInsert_lookup (cfg : Config) (s : CacheState) (k : String)
    (entry : CacheEntry) :
    mapGet (setInsert cfg s k entry).store k = some entry := by
  unfold setInsert
  by_cases hp : cfg.evictionPolicy = .lru <;>
    simp [hp, mapGet_mapSet_self]

/-- Whatever `set` leaves stored under `k` is exactly the freshly built
entry (the memory loop only deletes keys, never rewrites entries). -/
theorem memSet_lookup (cfg : Config) (s : CacheState) (k : String) (v : Value)
    (ttl : Option Int) (now : Nat) (s' : CacheState)
    (h : memSet cfg s k v ttl now = .ok s') (e : CacheEntry)
    (he : mapGet s'.store k = some e) : e = mkEntry cfg v ttl now := by
  unfold memSet at h
  have h3 := mapGet_checkMemoryLimits cfg _ s' h k e he
  rw [setInsert_lookup cfg s k (mkEntry cfg v ttl now)] at h3
  injection h3 with h4
  exact h4.symm

theorem memCleanup_keeps (s : CacheState) (now : Nat) (k : String)
    (e : CacheEntry) (h : mapGet s.store k = some e)
    (hlive : expiredB e now = false) :
    mapGet (memCleanup s now).2.store k = some e := by
  unfold mapGet at h ⊢
  unfold memCleanup
  dsimp only
  cases hf : s.store.find? (fun p => p.1 == k) with
  | none => rw [hf] at h; simp at h
  | some pr =>
    rw [hf] at h
    have hval : pr.2 = e := by simpa using h
    have : (s.store.filter (fun p => !(expiredB p.2 now))).find?
        (fun p => p.1 == k) = some pr :=
      find?_filter_of_pred hf (by simp [hval, hlive])
    rw [this]
    simpa using h

/-! ### Concrete fixtures for the claim theorems -/

/-- The default configuration `new MemoryCache()`. -/
def dCfg : Config := (construct {}).1

/-- The spec's LRU/FIFO scenario: `maxEntries = 3`, insert k1 k2 k3,
read k1, insert k4 (timestamps 0,1,2,3,4). -/
def lruFifoScenario (pol : EvictionPolicy) : JsOutcome CacheState :=
  let cfg := (construct { maxSize := some 3, evictionPolicy := some pol }).1
  (memSet cfg emptyState "k1" (.vStr "v1") none 0).bind fun s1 =>
  (memSet cfg s1 "k2" (.vStr "v2") none 1).bind fun s2 =>
  (memSet cfg s2 "k3" (.vStr "v3") none 2).bind fun s3 =>
  memSet cfg (memGet cfg s3 "k1" 3).2 "k4" (.vStr "v4") none 4

/-- A 200-character value; its JSON serialization is 202 characters, so
one entry under a one-character key is estimated at
`1*2 + 202*2 + 64 = 470` bytes. -/
def xs200 : String := String.mk (List.replicate 200 'x')

def c1Cfg : Config := (construct { maxMemory := some 1000 }).1

/-- Three inserts of 470-byte entries against a 1000-byte budget. -/
def c1Run : JsOutcome CacheState :=
  (memSet c1Cfg emptyState "a" (.vStr xs200) none 0).bind fun s1 =>
  (memSet c1Cfg s1 "b" (.vStr xs200) none 1).bind fun s2 =>
  memSet c1Cfg s2 "c" (.vStr xs200) none 2

/-- The state a compliant memory loop would have stopped at: after
evicting only "a", the entries "b" and "c" remain. -/
def c1Survivors : CacheState :=
  ⟨[("b", ⟨.vStr xs200, 1, 1, some 3600001, 3600000⟩),
    ("c", ⟨.vStr xs200, 2, 2, some 3600002, 3600000⟩)],
   [("b", 2), ("c", 3)], 4, 0, 0, 1⟩

def c3Cfg : Config := (construct { maxSize := some 1 }).1

/-- `maxEntries = 1`: insert the empty-string key, then a second key. -/
def c3Run : JsOutcome CacheState :=
  (memSet c3Cfg emptyState "" (.vStr "a") none 0).bind fun s1 =>
  memSet c3Cfg s1 "k" (.vStr "b") none 1

/-- State after `set("k", "v", 10)` at time 0 on a fresh default cache
(checked below); at time 20 the entry is expired but unswept. -/
def c5State : CacheState :=
  ⟨[("k", ⟨.vStr "v", 0, 0, some 10, 10⟩)], [("k", 1)], 2, 0, 0, 0⟩

/-! ### Claim theorems -/

set_option maxRecDepth 4000 in
/-- Claim C1: the claim states that after insertion evictions repeat
until estimated usage is at or below `maxMemoryBytes` or the table is
empty, and that when usage cannot be brought under the limit the last
single entry is retained.  The code computes `currentMemory` once as a
`const` before the `while` loop and never updates it, so once usage is
over the limit the loop evicts until the table is empty: here usage is
1410 > 1000 after the third insert, evicting only "a" would already
reach 940 ≤ 1000, yet the run ends with an empty table (three
evictions, nothing retained). -/
theorem c1_memory_loop_empties_table :
    (okState c1Run).map CacheState.store = some []
    ∧ (okState c1Run).map CacheState.evictions = some 3
    ∧ estimateMemoryUsage c1Survivors = some 940
    ∧ ((940 : Int) ≤ c1Cfg.maxMemory) := by decide

/-- Claim C2: the claim states that `set` tolerates non-serializable
values by substituting a bounded fallback estimate.  The code has no
try/catch: `estimateMemoryUsage` calls `JSON.stringify(entry.value).length`
directly, which throws for a self-referential structure (stringify
throws) and for `undefined` (stringify returns `undefined`, `.length`
throws), and the exception escapes `set` — contradicting the repo's own
test "should handle circular references in values"
(test/memory.test.ts lines 338-349). -/
theorem c2_estimate_throw_escapes_set :
    memSet dCfg emptyState "circular" .vCyclic none 0 = .throws
    ∧ memSet dCfg emptyState "u" .vUndefined none 0 = .throws := by decide

/-- Claim C3: the claim states the table never exceeds `maxEntries`
after `set` returns, one victim being evicted before inserting into a
full table — for any keys including the empty-string key.  `evictOne`
guards the deletion with `if (keyToEvict)`, and the empty string is
falsy in JS, so when the selected victim is the key `""` nothing is
evicted: with `maxEntries = 1`, after `set("")` then `set("k")` the
table holds 2 entries and the eviction counter is still 0. -/
theorem c3_empty_key_defeats_capacity :
    (okState c3Run).map memSize = some 2
    ∧ (okState c3Run).map CacheState.evictions = some 0
    ∧ c3Cfg.maxSize = 1 := by decide

/-- Claim C4 counterexample: the claim states that constructing with a
negative `maxEntries` raises at construction time.  The constructor
(memory.ts lines 46-55) has no validating or throwing path: the model
of those lines is a total function, and `maxSize := -1` is accepted and
stored verbatim. -/
theorem c4_construct_accepts_negative_cex :
    construct { maxSize := some (-1) }
      = (⟨-1, 104857600, 3600000, .lru⟩, emptyState)
    ∧ (construct { maxSize := some (-1) }).1.maxSize = -1 := by decide

/-- Claim C4 (amended): construction never raises — it only applies
`??` defaults and stores the configuration, even for a negative
`maxEntries`; a subsequent `set` on such a cache also completes
normally rather than failing at call time. -/
theorem c4_construct_total_amended :
    (∀ c : ConfigInput,
      construct c = (⟨c.maxSize.getD 1000, c.maxMemory.getD (100 * 1024 * 1024),
        c.defaultTTL.getD (60 * 60 * 1000), c.evictionPolicy.getD .lru⟩,
        emptyState))
    ∧ (okState (memSet (construct { maxSize := some (-1) }).1 emptyState
        "a" (.vStr "v") none 0)).isSome = true := by
  exact ⟨fun c => rfl, by decide⟩

/-- Claim C4 amended, instantiated at the negative `maxEntries`
input. -/
theorem c4_construct_witness :
    construct { maxSize := some (-1) }
      = (⟨-1, 100 * 1024 * 1024, 60 * 60 * 1000, .lru⟩, emptyState) :=
  c4_construct_total_amended.1 { maxSize := some (-1) }

/-- Claim C5 counterexample: the claim states an expired-but-unswept
entry is absent to every observer including `size` and `keys`.  After
`set("k","v",10)` at time 0, at time 20 the entry is expired (`get`
returns null, `has` is false) yet `size()` still reports 1 and
`keys()` still lists "k", because both read the raw `Map` without an
expiry check. -/
theorem c5_expired_visible_to_size_and_keys_cex :
    memSet dCfg emptyState "k" (.vStr "v") (some 10) 0 = .ok c5State
    ∧ memSize c5State = 1
    ∧ memKeys c5State none = ["k"]
    ∧ (memGet dCfg c5State "k" 20).1 = .vNull
    ∧ (memHas dCfg c5State "k" 20).1 = false := by decide

/-- Claim C5 (amended): an expired-but-unswept entry behaves as absent
to `get` (which returns null and lazily deletes it) and to `has`, but
`size` still counts it and `keys` still lists it until a `get` or
`cleanup` removes it. -/
theorem c5_expired_absent_to_get_has_amended (cfg : Config) (s : CacheState)
    (k : String) (e : CacheEntry) (now : Nat)
    (h : mapGet s.store k = some e) (hexp : expiredB e now = true) :
    (memGet cfg s k now).1 = .vNull
    ∧ (memGet cfg s k now).2.store = mapDelete s.store k
    ∧ (memHas cfg s k now).1 = false
    ∧ 0 < memSize s
    ∧ k ∈ memKeys s none := by
  have hg := memGet_expired cfg s k now e h hexp
  refine ⟨by rw [hg], by rw [hg], by simp [memHas, hg], ?_, ?_⟩
  · unfold memSize
    cases hs : s.store with
    | nil => rw [hs] at h; simp [mapGet] at h
    | cons q m => simp
  · cases hf : s.store.find? (fun p => p.1 == k) with
    | none => unfold mapGet at h; rw [hf] at h; simp at h
    | some pr =>
      have hmem := List.mem_of_find?_eq_some hf
      have hkey : pr.1 = k := by simpa using List.find?_some hf
      unfold memKeys
      rw [← hkey]
      exact List.mem_map_of_mem Prod.fst hmem

/-- Claim C5 amended, instantiated at the concrete expired state. -/
theorem c5_amended_witness :
    (memGet dCfg c5State "k" 20).1 = .vNull ∧ 0 < memSize c5State := by
  have h := c5_expired_absent_to_get_has_amended dCfg c5State "k"
    ⟨.vStr "v", 0, 0, some 10, 10⟩ 20 (by decide) (by decide)
  exact ⟨h.1, h.2.2.2.1⟩

/-- Fixture for the C6 witness: two live entries, "a" least recently
used. -/
def c6State : CacheState :=
  ⟨[("a", ⟨.vStr "x", 0, 0, none, 0⟩), ("b", ⟨.vStr "y", 0, 0, none, 0⟩)],
   [("a", 1), ("b", 2)], 3, 0, 0, 0⟩

/-- Claim C6: under LRU, whenever the recorded order indices have a
unique minimum at a non-falsy key, that key is the one `evictOne`
removes; and in the concrete scenario (maxEntries = 3, insert k1 k2 k3,
read k1, insert k4) the evicted key is k2 — k1 and k3 survive. -/
theorem c6_lru_evicts_least_recent :
    (∀ (cfg : Config) (s : CacheState) (k₀ : String) (t₀ : Nat),
      cfg.evictionPolicy = .lru → s.store.isEmpty = false →
      (k₀, t₀) ∈ s.accessOrder →
      (∀ p ∈ s.accessOrder, p ≠ (k₀, t₀) → t₀ < p.2) →
      k₀ ≠ "" →
      (evictOne cfg s).store = mapDelete s.store k₀
      ∧ (evictOne cfg s).accessOrder = mapDelete s.accessOrder k₀
      ∧ (evictOne cfg s).evictions = s.evictions + 1)
    ∧ (okState (lruFifoScenario .lru)).map
        (fun s => s.store.map Prod.fst) = some ["k1", "k3", "k4"] := by
  constructor
  · intro cfg s k₀ t₀ hp hne hmem hmin hk
    have hv : selectVictim (fun t => t) s.accessOrder = k₀ :=
      selectVictim_eq _ _ k₀ t₀ hmem hmin
    unfold evictOne
    rw [hne]
    simp [hp, hv, hk]
  · decide

/-- Claim C6, general part instantiated: in `c6State` the unique
least-recently-used key "a" is the one evicted. -/
theorem c6_lru_witness :
    (evictOne dCfg c6State).store = mapDelete c6State.store "a"
    ∧ (evictOne dCfg c6State).evictions = c6State.evictions + 1 := by
  have h := c6_lru_evicts_least_recent.1 dCfg c6State "a" 1 rfl (by decide)
    (by decide) (by decide) (by decide)
  exact ⟨h.1, h.2.2⟩

def fifoCfg : Config := (construct { evictionPolicy := some .fifo }).1

/-- Fixture for the C7 witness: "a" created before "b", no access
order recorded (FIFO caches never populate it). -/
def c7State : CacheState :=
  ⟨[("a", ⟨.vStr "x", 1, 1, none, 0⟩), ("b", ⟨.vStr "y", 2, 2, none, 0⟩)],
   [], 1, 0, 0, 0⟩

/-- Claim C7: under FIFO, whenever `createdAt` has a unique minimum at
a non-falsy key, that key is the one `evictOne` removes; a `get` of a
live entry never changes the `(key, createdAt)` ranking the FIFO victim
scan reads; and in the concrete scenario (maxEntries = 3, insert k1 k2
k3, read k1, insert k4) the evicted key is k1 despite the read. -/
theorem c7_fifo_evicts_oldest :
    (∀ (cfg : Config) (s : CacheState) (k₀ : String) (e₀ : CacheEntry),
      cfg.evictionPolicy = .fifo →
      (k₀, e₀) ∈ s.store →
      (∀ p ∈ s.store, p ≠ (k₀, e₀) → e₀.createdAt < p.2.createdAt) →
      k₀ ≠ "" →
      (evictOne cfg s).store = mapDelete s.store k₀
      ∧ (evictOne cfg s).evictions = s.evictions + 1)
    ∧ (∀ (cfg : Config) (s : CacheState) (k : String) (now : Nat)
        (e : CacheEntry), cfg.evictionPolicy = .fifo →
        (s.store.map Prod.fst).Nodup → mapGet s.store k = some e →
        expiredB e now = false →
        (memGet cfg s k now).2.store.map (fun p => (p.1, p.2.createdAt))
          = s.store.map (fun p => (p.1, p.2.createdAt)))
    ∧ (okState (lruFifoScenario .fifo)).map
        (fun s => s.store.map Prod.fst) = some ["k2", "k3", "k4"] := by
  refine ⟨?_, ?_, by decide⟩
  · intro cfg s k₀ e₀ hp hmem hmin hk
    have hv : selectVictim CacheEntry.createdAt s.store = k₀ :=
      selectVictim_eq _ _ k₀ e₀ hmem hmin
    have hne : s.store.isEmpty = false := by
      cases hs : s.store with
      | nil => rw [hs] at hmem; simp at hmem
      | cons q m => rfl
    have hpl : ¬ cfg.evictionPolicy = .lru := by
      rw [hp]; decide
    unfold evictOne
    rw [hne]
    simp [hpl, hv, hk]
  · intro cfg s k now e hp hnd h hlive
    exact memGet_fifo_ranking cfg s k now e hnd h hlive

/-- Claim C7, general part instantiated: in `c7State` the oldest key
"a" is evicted under FIFO, and a read of "a" leaves the FIFO ranking
unchanged. -/
theorem c7_fifo_witness :
    (evictOne fifoCfg c7State).store = mapDelete c7State.store "a"
    ∧ (memGet fifoCfg c7State "a" 5).2.store.map (fun p => (p.1, p.2.createdAt))
        = c7State.store.map (fun p => (p.1, p.2.createdAt)) := by
  have h1 := c7_fifo_evicts_oldest.1 fifoCfg c7State "a"
    ⟨.vStr "x", 1, 1, none, 0⟩ rfl (by decide) (by decide) (by decide)
  have h2 := c7_fifo_evicts_oldest.2.1 fifoCfg c7State "a" 5
    ⟨.vStr "x", 1, 1, none, 0⟩ rfl (by decide) (by decide) (by decide)
  exact ⟨h1.1, h2⟩

/-- State after `set("k", "v", 0)` at time 5 on a fresh default cache:
the entry has no `expiresAt`. -/
def c8State : CacheState :=
  ⟨[("k", ⟨.vStr "v", 5, 5, none, 0⟩)], [("k", 1)], 2, 0, 0, 0⟩

/-- Claim C8: a TTL of 0 or -1 builds an entry with `expiresAt` absent
and the given value; whatever a successful `set` leaves stored under
the key is exactly that fresh entry; `cleanup` never removes an entry
with `expiresAt` absent; and `get` returns such an entry's value at
every `now` (the TTL check never fires). -/
theorem c8_nonpositive_ttl_never_expires :
    (∀ (cfg : Config) (v : Value) (now : Nat) (t : Int), t = 0 ∨ t = -1 →
      (mkEntry cfg v (some t) now).expiresAt = none
      ∧ (mkEntry cfg v (some t) now).value = v)
    ∧ (∀ (cfg : Config) (s : CacheState) (k : String) (v : Value)
        (ttl : Option Int) (now : Nat) (s' : CacheState) (e : CacheEntry),
        memSet cfg s k v ttl now = .ok s' → mapGet s'.store k = some e →
        e = mkEntry cfg v ttl now)
    ∧ (∀ (s : CacheState) (now : Nat) (k : String) (e : CacheEntry),
        mapGet s.store k = some e → e.expiresAt = none →
        mapGet (memCleanup s now).2.store k = some e)
    ∧ (∀ (cfg : Config) (s : CacheState) (k : String) (now : Nat)
        (e : CacheEntry), mapGet s.store k = some e → e.expiresAt = none →
        (memGet cfg s k now).1 = e.value) := by
  refine ⟨?_, ?_, ?_, ?_⟩
  · rintro cfg v now t (rfl | rfl) <;> exact ⟨by simp [mkEntry], rfl⟩
  · intro cfg s k v ttl now s' e h he
    exact memSet_lookup cfg s k v ttl now s' h e he
  · intro s now k e h hexp
    exact memCleanup_keeps s now k e h (by simp [expiredB, hexp])
  · intro cfg s k now e h hexp
    exact (memGet_live cfg s k now e h (by simp [expiredB, hexp])).1

/-- Claim C8 instantiated: `set("k","v",0)` at time 5 stores an entry
with no `expiresAt`; far in the future `get` still returns "v" and
`cleanup` still keeps it. -/
theorem c8_witness :
    (mkEntry dCfg (.vStr "v") (some 0) 5).expiresAt = none
    ∧ (memGet dCfg c8State "k" 999999999).1 = Value.vStr "v"
    ∧ mapGet (memCleanup c8State 999999999).2.store "k"
        = some ⟨.vStr "v", 5, 5, none, 0⟩
    ∧ (⟨.vStr "v", 5, 5, none, 0⟩ : CacheEntry)
        = mkEntry dCfg (.vStr "v") (some 0) 5 := by
  have h := c8_nonpositive_ttl_never_expires
  refine ⟨(h.1 dCfg (.vStr "v") 5 0 (Or.inl rfl)).1,
    by rw [h.2.2.2 dCfg c8State "k" 999999999 ⟨.vStr "v", 5, 5, none, 0⟩
      (by decide) rfl],
    h.2.2.1 c8State 999999999 "k" ⟨.vStr "v", 5, 5, none, 0⟩ (by decide) rfl,
    h.2.1 dCfg emptyState "k" (.vStr "v") (some 0) 5 c8State
      ⟨.vStr "v", 5, 5, none, 0⟩ (by decide) (by decide)⟩

/-- Fixture for C9: a stored key consisting of a single newline. -/
def c9State : CacheState :=
  ⟨[("\n", ⟨.vStr "v", 0, 0, none, 0⟩)], [("\n", 1)], 2, 0, 0, 0⟩

/-- Claim C9 counterexample: the claim states `?` matches exactly one
character, `*` any run of characters, and that every pattern filters
the keys this way.  Both fail: `?` compiles to regex `.`, which does
not match a line terminator, so `keys("?")` misses the stored key
`"\n"` although the claim's matcher accepts it; and the empty pattern
is falsy, so `keys("")` returns every key although the claim's
anchored match accepts only the empty key. -/
theorem c9_glob_newline_cex :
    memKeys c9State none = ["\n"]
    ∧ memKeys c9State (some "?") = []
    ∧ specGlobMatch "?".data "\n".data = true
    ∧ memKeys c9State (some "") = ["\n"]
    ∧ specGlobMatch "".data "\n".data = false := by decide

/-- Claim C9 (amended): for a nonempty pattern, `keys(pattern)` returns
exactly the stored keys, in table order, whose whole text matches the
whole pattern, where `?` matches exactly one non-line-terminator
character, `*` matches a run of zero or more non-line-terminator
characters, and every other character — including regex metacharacters
— matches itself; the empty pattern is treated as no pattern and
returns all keys. -/
theorem c9_keys_glob_amended :
    (∀ (s : CacheState) (p : String), p ≠ "" →
      memKeys s (some p)
        = (s.store.map Prod.fst).filter (fun k => amatch p.data k.data))
    ∧ (∀ s : CacheState, memKeys s (some "") = s.store.map Prod.fst) := by
  constructor
  · intro s p hp
    have hdef : memKeys s (some p)
        = if p = "" then s.store.map Prod.fst
          else (s.store.map Prod.fst).filter
            (fun k => rtest (globToRegexStr p.data) k) := rfl
    rw [hdef, if_neg hp]
    exact List.filter_congr (fun k _ => rtest_glob p.data k)
  · intro s
    simp [memKeys]

/-- Fixture for the C9 witness: a small populated store. -/
def c9wState : CacheState :=
  ⟨[("user:1", ⟨.vStr "u", 0, 0, none, 0⟩),
    ("post:1", ⟨.vStr "p", 0, 0, none, 0⟩),
    ("user:22", ⟨.vStr "w", 0, 0, none, 0⟩)],
   [("user:1", 1), ("post:1", 2), ("user:22", 3)], 4, 0, 0, 0⟩

/-- Claim C9 amended, instantiated at a concrete store and pattern. -/
theorem c9_keys_glob_witness :
    memKeys c9wState (some "user:*")
      = (c9wState.store.map Prod.fst).filter
          (fun k => amatch "user:*".data k.data)
    ∧ memKeys c9wState (some "user:*") = ["user:1", "user:22"] :=
  ⟨c9_keys_glob_amended.1 c9wState "user:*" (by decide), by decide⟩

/-- Fixture for C10: a live entry whose stored value is `null`. -/
def c10State : CacheState :=
  ⟨[("k", ⟨.vNull, 0, 0, none, 0⟩)], [("k", 1)], 2, 0, 0, 0⟩

/-- Claim C10: reading a live entry whose stored value is `null`
returns `null` (indistinguishable from a miss), yet counts as a hit
(hits + 1, misses unchanged) and refreshes the LRU order index, while
`has` — defined as `get(key) !== null` — reports `false` for this live
entry. -/
theorem c10_null_value_hit_but_has_false :
    ∀ (cfg : Config) (s : CacheState) (k : String) (e : CacheEntry)
      (now : Nat), mapGet s.store k = some e → e.value = .vNull →
      expiredB e now = false →
      (memGet cfg s k now).1 = .vNull
      ∧ (memGet cfg s k now).2.hits = s.hits + 1
      ∧ (memGet cfg s k now).2.misses = s.misses
      ∧ (cfg.evictionPolicy = .lru →
          mapGet (memGet cfg s k now).2.accessOrder k = some s.nextAccessTime
          ∧ (memGet cfg s k now).2.nextAccessTime = s.nextAccessTime + 1)
      ∧ (memHas cfg s k now).1 = false := by
  intro cfg s k e now h hv hl
  have hg := memGet_live cfg s k now e h hl
  refine ⟨hv ▸ hg.1, hg.2.1, hg.2.2.1, fun hp => ?_, ?_⟩
  · have hlru := hg.2.2.2.2.1 hp
    exact ⟨by rw [hlru.1]; exact mapGet_mapSet_self _ _ _, hlru.2⟩
  · unfold memHas
    dsimp only
    rw [hg.1, hv]
    decide

/-- Claim C10 instantiated at a live stored `null`. -/
theorem c10_witness :
    (memGet dCfg c10State "k" 5).1 = Value.vNull
    ∧ (memHas dCfg c10State "k" 5).1 = false
    ∧ (memGet dCfg c10State "k" 5).2.hits = c10State.hits + 1
    ∧ mapGet (memGet dCfg c10State "k" 5).2.accessOrder "k"
        = some c10State.nextAccessTime := by
  have h := c10_null_value_hit_but_has_false dCfg c10State "k"
    ⟨.vNull, 0, 0, none, 0⟩ 5 (by decide) rfl (by decide)
  exact ⟨h.1, h.2.2.2.2, h.2.1, (h.2.2.2.1 rfl).1⟩

end SynetCache
